import Mathlib

/-!
Verification of the branch-and-commit orchestration of the `gh` dagger module
(`gh/dagger/main.go`), the version-bump logic of the `istio` dagger module
(`istio/dagger/main.go`), and the pull-request creation error path.

The git object store, reference store and worktree are shallowly embedded as a
`GitState`; the go-git operations the module calls (`Reference`, `Checkout`,
`Head`, `Storer.SetReference`, `Add`, `Commit`) are modelled as pure functions
over that state, and the module's exported functions are translated line by
line from the Go source, including the spot where the source assigns the
`Checkout` error to `err` and then overwrites it without checking it.
-/

namespace Daggerverse

/-- Commit hashes are modelled as natural numbers; the content-addressing of
real git is irrelevant to the claims, only identity of hashes matters. -/
abbrev Hash := Nat

/-- A commit object: parent hash (none for a root commit), tree hash,
author identity and message, mirroring `object.Signature` plus the commit
message in `git.CommitOptions` / `object.Commit`. -/
structure Commit where
  parent : Option Hash
  tree : Nat
  authorName : String
  authorEmail : String
  message : String
deriving Repr, DecidableEq

/-- The state of an opened repository: the object store (`commits`), the
branch reference store (`refs`, keyed by short branch name, i.e. the `<name>`
of `refs/heads/<name>`), the branch HEAD symbolically points at
(`headBranch`), the tree hash of the working files (`worktree`), the tree
hash of the staging area (`index`), and a fresh-hash supply for new commit
objects (`nextHash`). -/
structure GitState where
  commits : List (Hash × Commit)
  refs : List (String × Hash)
  headBranch : String
  worktree : Nat
  index : Nat
  nextHash : Hash
deriving Repr, DecidableEq

/-- Association-list lookup of a branch reference, modelling
`Repository.Reference(plumbing.NewBranchReferenceName(name), true)`. -/
def lookupRef (refs : List (String × Hash)) (name : String) : Option Hash :=
  match refs with
  | [] => none
  | (m, k) :: rest => if m = name then some k else lookupRef rest name

/-- Association-list lookup of a commit object in the object store. -/
def lookupCommit (commits : List (Hash × Commit)) (h : Hash) : Option Commit :=
  match commits with
  | [] => none
  | (m, c) :: rest => if m = h then some c else lookupCommit rest h

/-- Create-or-overwrite of a branch reference, modelling
`Storer.SetReference(plumbing.NewHashReference(...))`: the first entry with
the given name is replaced (last-writer-wins), a missing entry is appended. -/
def setRefList (refs : List (String × Hash)) (name : String) (h : Hash) :
    List (String × Hash) :=
  match refs with
  | [] => [(name, h)]
  | (m, k) :: rest =>
    if m = name then (name, h) :: rest else (m, k) :: setRefList rest name h

/-- Resolution of HEAD to a commit hash, modelling `Repository.Head()`:
HEAD is a symbolic reference to `headBranch`; it resolves iff that branch
has a reference, and errors (`none`) on an unborn branch. -/
def headOf (s : GitState) : Option Hash :=
  lookupRef s.refs s.headBranch

/-- Checkout of a branch, modelling `Worktree.Checkout(&git.CheckoutOptions{Branch: ...})`
without `Force`: go-git first refuses when the worktree holds unstaged
changes, then resolves the branch to a commit and resets HEAD, index and
worktree to that commit's tree. -/
def checkout (s : GitState) (branch : String) : Except String GitState :=
  if s.worktree ≠ s.index then
    Except.error "worktree contains unstaged changes"
  else
    match lookupRef s.refs branch with
    | none => Except.error "reference not found"
    | some h =>
      match lookupCommit s.commits h with
      | none => Except.error "object not found"
      | some c =>
        Except.ok { s with headBranch := branch, worktree := c.tree, index := c.tree }

/-- Commit creation, modelling `Worktree.Commit(msg, &git.CommitOptions{All: true, Author: ...})`:
`All: true` stages every tracked change (index becomes the worktree tree),
the new commit's parent is the current HEAD, and the reference HEAD points at
is advanced to the new commit's hash. The module's source contains no
skip-empty check, so a zero-diff commit is created like any other. -/
def commitAll (s : GitState) (msg authorName authorEmail : String) :
    Hash × GitState :=
  let staged := { s with index := s.worktree }
  let c : Commit :=
    { parent := headOf staged, tree := staged.index,
      authorName := authorName, authorEmail := authorEmail, message := msg }
  let h := staged.nextHash
  (h, { staged with
          commits := (h, c) :: staged.commits,
          refs := setRefList staged.refs staged.headBranch h,
          nextHash := staged.nextHash + 1 })

/-- Translation of `Gh.CreateLocalBranch` (gh/dagger/main.go lines 61-108),
starting from the opened repository state (the `Export`/`PlainOpen` steps
that produce it are the caller's "opened repository"). Steps: resolve the
base branch reference (error surfaced), get the worktree, call
`wt.Checkout` — whose error the source assigns to `err` and then overwrites
at `headRef, err := gitRepo.Head()` without ever checking it, so a failed
checkout is silently ignored and the state is left unchanged — then read
HEAD and create/overwrite `refs/heads/<branchName>` at HEAD's hash. -/
def CreateLocalBranch (s : GitState) (baseBranch branchName : String) :
    Except String (String × GitState) :=
  match lookupRef s.refs baseBranch with
  | none => Except.error "failed to get reference"
  | some _ =>
    let s1 := match checkout s baseBranch with
              | Except.ok s' => s'
              | Except.error _ => s
    match headOf s1 with
    | none => Except.error "failed to get HEAD"
    | some h =>
      Except.ok ("created local branch " ++ branchName,
                 { s1 with refs := setRefList s1.refs branchName h })

/-- Translation of `Gh.CommitChangesInNewBranch` (gh/dagger/main.go lines
110-169), starting from the opened repository state. Steps: read HEAD
(error surfaced), create/overwrite `refs/heads/<branchName>` at HEAD's hash,
stage everything (`wt.Add(".")`), and commit with `All: true` and the fixed
author `Dagger <mihai.g@adoreme.com>`. Note the source never checks out
`branchName`, so the commit advances whatever branch HEAD points at. -/
def CommitChangesInNewBranch (s : GitState) (commitTitle branchName : String) :
    Except String (String × GitState) :=
  match headOf s with
  | none => Except.error "failed to get HEAD"
  | some h =>
    let s1 := { s with refs := setRefList s.refs branchName h }
    let s2 := { s1 with index := s1.worktree }
    let r := commitAll s2 commitTitle "Dagger" "mihai.g@adoreme.com"
    Except.ok ("successfully committed changes", r.2)

/-!
Semantic-version model, translated from `github.com/Masterminds/semver` (v1),
which `istio/dagger/main.go` imports: `NewVersion` matches the anchored
regular expression
`v?([0-9]+)(\.[0-9]+)?(\.[0-9]+)?(-(ident(\.ident)*))?(\+(ident(\.ident)*))?`
with `ident = [0-9A-Za-z-]+`, absent minor/patch defaulting to 0, and
`Compare` orders by major, minor, patch, then prerelease (a version with a
prerelease sorts below its release; prerelease parts are compared pairwise,
numerically when both parse as integers, lexicographically otherwise).
-/

/-- A parsed semantic version as `semver.Version` stores it: numeric
major/minor/patch and the raw prerelease and metadata strings. -/
structure SemVer where
  major : Nat
  minor : Nat
  patch : Nat
  pre : String
  metadata : String
deriving Repr, DecidableEq

/-- Character class `[0-9A-Za-z-]` of prerelease/metadata identifiers. -/
def isIdentChar (c : Char) : Bool :=
  c.isDigit || (('A' ≤ c && c ≤ 'Z') || ('a' ≤ c && c ≤ 'z')) || c = '-'

/-- Numeric value of a digit run (used for major/minor/patch and for numeric
prerelease parts). -/
def digitsToNat (cs : List Char) : Nat :=
  cs.foldl (fun acc c => acc * 10 + (c.toNat - '0'.toNat)) 0

/-- Split a character list on a separator character, `strings.Split` style:
the empty input yields one empty part, and every separator occurrence starts
a new part. -/
def splitOnChar (sep : Char) : List Char → List (List Char)
  | [] => [[]]
  | c :: cs =>
    let r := splitOnChar sep cs
    if c = sep then [] :: r
    else
      match r with
      | [] => [[c]]
      | g :: gs => (c :: g) :: gs

/-- Model of `strings.Split(s, ".")`, used on prerelease strings. -/
def splitDots (s : String) : List String :=
  (splitOnChar '.' s.data).map String.mk

/-- A dot-separated identifier sequence `ident(\.ident)*` is valid iff
splitting on the dots yields only nonempty all-identifier parts. -/
def validIdentSeq (cs : List Char) : Bool :=
  let parts := (splitOnChar '.' cs).map String.mk
  parts.all (fun p => p ≠ "" && p.data.all isIdentChar)

/-- Parse `.minor` / `.patch`: absent (not starting with a dot followed by a
digit run) yields 0 and leaves the input; present consumes `.[0-9]+`. -/
def parseDotNum (cs : List Char) : Option (Nat × List Char) :=
  match cs with
  | '.' :: rest =>
    let ds := rest.takeWhile Char.isDigit
    if ds = [] then none else some (digitsToNat ds, rest.drop ds.length)
  | _ => some (0, cs)

/-- Translation of `semver.NewVersion` (Masterminds v1): optional leading
`v`, mandatory digit run for the major number, optional `.minor` and
`.patch`, optional `-prerelease` and `+metadata` identifier sequences, and
the whole string must be consumed; any mismatch is `ErrInvalidSemVer`,
modelled as `none`. -/
def NewVersion (s : String) : Option SemVer := do
  let cs0 := s.data
  let cs1 := match cs0 with
             | 'v' :: rest => rest
             | _ => cs0
  let majDs := cs1.takeWhile Char.isDigit
  if majDs = [] then none else
  let cs2 := cs1.drop majDs.length
  let (minorN, cs3) ← parseDotNum cs2
  let (patchN, cs4) ← parseDotNum cs3
  let (preStr, cs5) ←
    match cs4 with
    | '-' :: rest =>
      let run := rest.takeWhile (fun c => isIdentChar c || c = '.')
      if validIdentSeq run then some (String.mk run, rest.drop run.length) else none
    | _ => some ("", cs4)
  let (metaStr, cs6) ←
    match cs5 with
    | '+' :: rest =>
      let run := rest.takeWhile (fun c => isIdentChar c || c = '.')
      if validIdentSeq run then some (String.mk run, rest.drop run.length) else none
    | _ => some ("", cs5)
  if cs6 = [] then
    some { major := digitsToNat majDs, minor := minorN, patch := patchN,
           pre := preStr, metadata := metaStr }
  else none

/-- Translation of `strconv.ParseInt(s, 10, 64)` as the prerelease comparator
uses it: an optional sign followed by a nonempty digit run (overflow is not
modelled; no istio tag approaches 2^63). -/
def parseInt64 (s : String) : Option Int :=
  match s.data with
  | [] => none
  | '-' :: rest =>
    if rest ≠ [] && rest.all Char.isDigit then some (-(digitsToNat rest : Int)) else none
  | '+' :: rest =>
    if rest ≠ [] && rest.all Char.isDigit then some (digitsToNat rest : Int) else none
  | cs =>
    if cs.all Char.isDigit then some (digitsToNat cs : Int) else none

/-- Translation of Masterminds v1 `compareSegment` on one numeric segment. -/
def compareSegment (a b : Nat) : Int :=
  if a > b then 1 else if a < b then -1 else 0

/-- Translation of Masterminds v1 `comparePrePart`: equal parts tie, an empty
part loses to a nonempty one, two numeric parts compare as integers, and any
other pair compares lexicographically as strings. -/
def comparePrePart (s o : String) : Int :=
  if s = o then 0
  else if s = "" then (if o ≠ "" then -1 else 1)
  else if o = "" then (if s ≠ "" then 1 else -1)
  else
    match parseInt64 s, parseInt64 o with
    | some si, some oi => if si > oi then 1 else -1
    | some _, none => -1
    | none, some _ => 1
    | none, none => if o < s then 1 else -1

/-- Pairwise comparison of two prerelease part lists, padding the shorter
list with empty parts as the v1 loop does. -/
def comparePreParts : List String → List String → Int
  | [], [] => 0
  | [], o :: os => if comparePrePart "" o ≠ 0 then comparePrePart "" o else comparePreParts [] os
  | s :: ss, [] => if comparePrePart s "" ≠ 0 then comparePrePart s "" else comparePreParts ss []
  | s :: ss, o :: os =>
    if comparePrePart s o ≠ 0 then comparePrePart s o else comparePreParts ss os

/-- Translation of `semver.Version.Compare` (Masterminds v1): major, minor
and patch segments first; then both releases tie, a release beats a
prerelease, and two prereleases compare part by part on their dot-split. -/
def semverCompare (v o : SemVer) : Int :=
  if compareSegment v.major o.major ≠ 0 then compareSegment v.major o.major
  else if compareSegment v.minor o.minor ≠ 0 then compareSegment v.minor o.minor
  else if compareSegment v.patch o.patch ≠ 0 then compareSegment v.patch o.patch
  else if v.pre = "" && o.pre = "" then 0
  else if v.pre = "" then 1
  else if o.pre = "" then -1
  else comparePreParts (splitDots v.pre) (splitDots o.pre)

/-- Translation of `Istio.IsNewerVersion` (istio/dagger/main.go lines
111-129) as a function of the two version strings held on the `Istio`
struct: parse the latest version (wrapped parse error surfaced), parse the
local version (wrapped parse error surfaced), and return whether the latest
compares strictly greater. -/
def IsNewerVersion (latestVersion localVersion : String) : Except String Bool :=
  match NewVersion latestVersion with
  | none => Except.error "failed to parse latest version: Invalid Semantic Version"
  | some lv =>
    match NewVersion localVersion with
    | none => Except.error "failed to parse local version: Invalid Semantic Version"
    | some lo =>
      if semverCompare lv lo > 0 then Except.ok true else Except.ok false

/-!
Model of the `IstioVersionCm` YAML document and of `Istio.ReturnUpdatedCm`.
`yaml.Unmarshal` / `yaml.Marshal` from `gopkg.in/yaml.v2` are modelled for
exactly the fixed schema the Go struct declares (block style, two-space
indent, fields in struct order), which is the shape the module reads and
writes.
-/

/-- The `annotations` block of the ConfigMap metadata: the single key
`kustomize.toolkit.fluxcd.io/ssa` (Go field `KustomizeToolkitFluxcdIoSsa`). -/
structure CmAnnots where
  ssaValue : String
deriving Repr, DecidableEq

/-- The `metadata` block of the ConfigMap (`nspace` stands for the YAML key
`namespace`, a reserved word in Lean). -/
structure CmMetadata where
  name : String
  nspace : String
  annots : CmAnnots
deriving Repr, DecidableEq

/-- The `data` block of the ConfigMap, holding the version string. -/
structure CmData where
  version : String
deriving Repr, DecidableEq

/-- Translation of the Go struct `IstioVersionCm` (istio/dagger/main.go
lines 47-60). -/
structure IstioVersionCm where
  apiVersion : String
  kind : String
  metadata : CmMetadata
  data : CmData
deriving Repr, DecidableEq

/-- Model of `yaml.Marshal` on an `IstioVersionCm` value: block-style YAML
with the struct's field order and two-space indentation. -/
def marshalCm (cm : IstioVersionCm) : String :=
  "apiVersion: " ++ cm.apiVersion ++ "\n" ++
  "kind: " ++ cm.kind ++ "\n" ++
  "metadata:\n" ++
  "  name: " ++ cm.metadata.name ++ "\n" ++
  "  namespace: " ++ cm.metadata.nspace ++ "\n" ++
  "  annotations:\n" ++
  "    kustomize.toolkit.fluxcd.io/ssa: " ++ cm.metadata.annots.ssaValue ++ "\n" ++
  "data:\n" ++
  "  version: " ++ cm.data.version ++ "\n"

/-- Strip an expected leading character sequence, returning the remainder. -/
def chopLead : List Char → List Char → Option (List Char)
  | [], cs => some cs
  | p :: ps, c :: cs => if c = p then chopLead ps cs else none
  | _ :: _, [] => none

/-- Read the value after a fixed `key: ` lead on one line. -/
def lineVal (lead line : String) : Option String :=
  (chopLead lead.data line.data).map String.mk

/-- Model of `yaml.Unmarshal` into `IstioVersionCm`, inverting `marshalCm`
on the fixed schema: ten newline-separated segments (the last empty, from the
trailing newline) carrying the document's fields in struct order. -/
def unmarshalCm (content : String) : Option IstioVersionCm :=
  match (splitOnChar '\n' content.data).map String.mk with
  | [l1, l2, l3, l4, l5, l6, l7, l8, l9, l10] => do
    let a ← lineVal "apiVersion: " l1
    let k ← lineVal "kind: " l2
    if l3 ≠ "metadata:" then none else
    let n ← lineVal "  name: " l4
    let ns ← lineVal "  namespace: " l5
    if l6 ≠ "  annotations:" then none else
    let ssa ← lineVal "    kustomize.toolkit.fluxcd.io/ssa: " l7
    if l8 ≠ "data:" then none else
    let v ← lineVal "  version: " l9
    if l10 ≠ "" then none else
    some { apiVersion := a, kind := k,
           metadata := { name := n, nspace := ns, annots := { ssaValue := ssa } },
           data := { version := v } }
  | _ => none

/-- The state `Istio.ReturnUpdatedCm` works over: the two version strings the
constructor derived, and the ConfigMap file's contents. -/
structure IstioState where
  latestVersion : String
  localVersion : String
  configMap : String
deriving Repr, DecidableEq

/-- Translation of `Istio.ReturnUpdatedCm` (istio/dagger/main.go lines
134-168): check `IsNewerVersion` (wrapped error surfaced); when no newer
version exists return the "No update needed" message and leave the ConfigMap
untouched; otherwise read the contents, unmarshal them, set `data.version`
to the latest version, marshal, store the new contents on the module state
and return them. -/
def ReturnUpdatedCm (m : IstioState) : Except String (String × IstioState) :=
  match IsNewerVersion m.latestVersion m.localVersion with
  | Except.error e => Except.error ("failed to check if newer version: " ++ e)
  | Except.ok false =>
    Except.ok ("No update needed. Latest version is " ++ m.latestVersion, m)
  | Except.ok true =>
    match unmarshalCm m.configMap with
    | none => Except.error "failed to unmarshal yaml"
    | some cm =>
      let cm2 := { cm with data := { version := m.latestVersion } }
      let newContent := marshalCm cm2
      Except.ok (newContent, { m with configMap := newContent })

/-!
Model of `Gh.CreatePullRequest` (gh/dagger/main.go lines 215-249). The
GitHub API call `client.PullRequests.Create` is the external collaborator;
its documented outcome shapes are: success; failure with an HTTP response
(API error, `rsp` non-nil carrying the response body); failure with no HTTP
response at all (transport/context error, `rsp == nil`). The Go function
formats `rsp.Body` into its error message whenever `err != nil`; when `rsp`
is nil that expression dereferences a nil pointer and the goroutine panics
instead of returning.
-/

/-- Outcome shapes of `client.PullRequests.Create`. -/
inductive PRApiResult where
  | success : PRApiResult
  | apiError (errMsg body : String) : PRApiResult
  | transportError (errMsg : String) : PRApiResult
deriving Repr, DecidableEq

/-- Outcome of a Go function call that can also panic. -/
inductive GoOutcome (α : Type) where
  | ok : α → GoOutcome α
  | err : String → GoOutcome α
  | panicked : String → GoOutcome α
deriving Repr, DecidableEq

/-- Translation of `Gh.CreatePullRequest` (gh/dagger/main.go lines 215-249):
token retrieval failure is surfaced; the API call's error, when a response
exists, is wrapped together with `rsp.Body`; when the call fails with no
response, the source's `rsp.Body` dereferences a nil pointer and panics. -/
def CreatePullRequest (tokenOk : Bool) (apiCall : PRApiResult) : GoOutcome String :=
  if !tokenOk then GoOutcome.err "failed to get token" else
  match apiCall with
  | PRApiResult.success => GoOutcome.ok "successfully created the pull request"
  | PRApiResult.apiError e body =>
    GoOutcome.err ("failed to create pull request with error: " ++ e ++
                   ".\nMore details in response: " ++ body)
  | PRApiResult.transportError _ =>
    GoOutcome.panicked "runtime error: invalid memory address or nil pointer dereference"

/-!
Concrete repository fixtures used by the witnesses and the failing-input
evaluations.
-/

/-- A root commit with tree hash 0. -/
def exC0 : Commit :=
  { parent := none, tree := 0, authorName := "A", authorEmail := "a@x",
    message := "init" }

/-- A second commit (child of `exC0`) with tree hash 2, sitting on `dev`. -/
def exC2 : Commit :=
  { parent := some 0, tree := 2, authorName := "A", authorEmail := "a@x",
    message := "second" }

/-- A repository with one commit on the checked-out branch `master` and a
modified working tree (tree hash 7 against committed tree 0). -/
def exRepo0 : GitState :=
  { commits := [(0, exC0)], refs := [("master", 0)], headBranch := "master",
    worktree := 7, index := 0, nextHash := 1 }

/-- The commit `CommitChangesInNewBranch exRepo0 "T" "feature"` creates. -/
def exCommitNew : Commit :=
  { parent := some 0, tree := 7, authorName := "Dagger",
    authorEmail := "mihai.g@adoreme.com", message := "T" }

/-- The repository state after `CommitChangesInNewBranch exRepo0 "T" "feature"`. -/
def exRepo0After : GitState :=
  { commits := [(1, exCommitNew), (0, exC0)],
    refs := [("master", 1), ("feature", 0)], headBranch := "master",
    worktree := 7, index := 7, nextHash := 2 }

/-- A repository with one commit on the checked-out branch `master` and a
clean working tree (no changes relative to HEAD). -/
def exRepoClean : GitState :=
  { commits := [(0, exC0)], refs := [("master", 0)], headBranch := "master",
    worktree := 0, index := 0, nextHash := 1 }

/-- A repository checked out on `dev` (commit 2) with unstaged changes
(worktree tree 9 against index tree 2), so a checkout of `master` fails. -/
def exDirty : GitState :=
  { commits := [(0, exC0), (2, exC2)], refs := [("master", 0), ("dev", 2)],
    headBranch := "dev", worktree := 9, index := 2, nextHash := 3 }

/-- A concrete well-formed ConfigMap document. -/
def exCm : IstioVersionCm :=
  { apiVersion := "v1", kind := "ConfigMap",
    metadata := { name := "istio-version", nspace := "istio-system",
                  annots := { ssaValue := "merge" } },
    data := { version := "1.2.0" } }

/-!
Helper lemmas shared by the claim theorems.
-/

lemma lookupRef_setRefList (refs : List (String × Hash)) (n : String) (h : Hash)
    (q : String) :
    lookupRef (setRefList refs n h) q = if q = n then some h else lookupRef refs q := by
  induction refs with
  | nil =>
    by_cases h1 : n = q
    · subst h1
      simp [setRefList, lookupRef]
    · simp [setRefList, lookupRef, h1, Ne.symm h1]
  | cons p rest ih =>
    obtain ⟨k, v⟩ := p
    by_cases h1 : k = n
    · subst h1
      by_cases h2 : k = q
      · subst h2
        simp [setRefList, lookupRef]
      · simp [setRefList, lookupRef, h2, Ne.symm h2]
    · by_cases h2 : k = q
      · subst h2
        simp [setRefList, lookupRef, h1]
      · simp [setRefList, lookupRef, h1, h2, ih]

lemma checkout_ok (s : GitState) (base : String) (hb : Hash) (cb : Commit)
    (href : lookupRef s.refs base = some hb)
    (hcm : lookupCommit s.commits hb = some cb)
    (hclean : s.worktree = s.index) :
    checkout s base = Except.ok
      { s with headBranch := base, worktree := cb.tree, index := cb.tree } := by
  simp [checkout, hclean, href, hcm]

lemma createLocalBranch_run (s : GitState) (base bn : String) (hb : Hash)
    (cb : Commit)
    (href : lookupRef s.refs base = some hb)
    (hcm : lookupCommit s.commits hb = some cb)
    (hclean : s.worktree = s.index) :
    CreateLocalBranch s base bn = Except.ok ("created local branch " ++ bn,
      { s with headBranch := base, worktree := cb.tree, index := cb.tree,
               refs := setRefList s.refs bn hb }) := by
  have hchk := checkout_ok s base hb cb href hcm hclean
  have hhead : headOf
      { s with headBranch := base, worktree := cb.tree, index := cb.tree } = some hb := by
    simpa [headOf] using href
  simp [CreateLocalBranch, href, hchk, hhead]

/-!
Claim theorems.
-/

/-- C1: for every opened repository in which the base branch exists (and
whose worktree is clean, so the checkout the function performs goes
through), `CreateLocalBranch` creates or overwrites `refs/heads/<branchName>`
so that it points at the same commit hash as HEAD after checking out the
base branch; no new commit object is created, and an already-existing
reference with that name is overwritten last-writer-wins (no hypothesis on
`bn`'s prior absence is needed). -/
theorem createLocalBranch_points_at_base (s : GitState) (base bn : String)
    (hb : Hash) (cb : Commit)
    (href : lookupRef s.refs base = some hb)
    (hcm : lookupCommit s.commits hb = some cb)
    (hclean : s.worktree = s.index) :
    ∃ sc s', checkout s base = Except.ok sc ∧ headOf sc = some hb ∧
      CreateLocalBranch s base bn = Except.ok ("created local branch " ++ bn, s') ∧
      lookupRef s'.refs bn = some hb ∧ s'.commits = s.commits := by
  refine ⟨_, _, checkout_ok s base hb cb href hcm hclean, ?_,
          createLocalBranch_run s base bn hb cb href hcm hclean, ?_, rfl⟩
  · simpa [headOf] using href
  · simp [lookupRef_setRefList]

/-- C1 witness: the scenario of the spec, instantiated on `exRepoClean`
(base branch `master` exists with one commit): `feature` ends up at
`master`'s commit hash 0 and no commit is created. -/
theorem createLocalBranch_points_at_base_witness :
    ∃ sc s', checkout exRepoClean "master" = Except.ok sc ∧ headOf sc = some 0 ∧
      CreateLocalBranch exRepoClean "master" "feature" =
        Except.ok ("created local branch " ++ "feature", s') ∧
      lookupRef s'.refs "feature" = some 0 ∧ s'.commits = exRepoClean.commits :=
  createLocalBranch_points_at_base exRepoClean "master" "feature" 0 exC0
    (by decide) (by decide) (by decide)

/-- C6: applying `CreateLocalBranch` twice with the same base branch and new
branch name is idempotent — the second application also succeeds and the
resulting hash of `refs/heads/<bn>` is identical both times. -/
theorem createLocalBranch_idempotent (s : GitState) (base bn : String)
    (hb : Hash) (cb : Commit)
    (href : lookupRef s.refs base = some hb)
    (hcm : lookupCommit s.commits hb = some cb)
    (hclean : s.worktree = s.index) :
    ∃ s1 s2, CreateLocalBranch s base bn = Except.ok ("created local branch " ++ bn, s1) ∧
      CreateLocalBranch s1 base bn = Except.ok ("created local branch " ++ bn, s2) ∧
      lookupRef s1.refs bn = some hb ∧
      lookupRef s2.refs bn = lookupRef s1.refs bn := by
  set s1 : GitState :=
    { s with headBranch := base, worktree := cb.tree, index := cb.tree,
             refs := setRefList s.refs bn hb } with hs1
  have href1 : lookupRef s1.refs base = some hb := by
    rw [hs1]
    show lookupRef (setRefList s.refs bn hb) base = some hb
    rw [lookupRef_setRefList]
    split
    · rfl
    · exact href
  have hcm1 : lookupCommit s1.commits hb = some cb := hcm
  have hclean1 : s1.worktree = s1.index := rfl
  refine ⟨s1, _, createLocalBranch_run s base bn hb cb href hcm hclean,
          createLocalBranch_run s1 base bn hb cb href1 hcm1 hclean1, ?_, ?_⟩
  · show lookupRef (setRefList s.refs bn hb) bn = some hb
    simp [lookupRef_setRefList]
  · show lookupRef (setRefList s1.refs bn hb) bn = lookupRef s1.refs bn
    have h2 : lookupRef s1.refs bn = some hb := by
      show lookupRef (setRefList s.refs bn hb) bn = some hb
      simp [lookupRef_setRefList]
    rw [lookupRef_setRefList, h2]
    simp

/-- C6 witness: both applications on the concrete clean repository yield
`feature ↦ 0`. -/
theorem createLocalBranch_idempotent_witness :
    ∃ s1 s2, CreateLocalBranch exRepoClean "master" "feature" =
        Except.ok ("created local branch " ++ "feature", s1) ∧
      CreateLocalBranch s1 "master" "feature" =
        Except.ok ("created local branch " ++ "feature", s2) ∧
      lookupRef s1.refs "feature" = some 0 ∧
      lookupRef s2.refs "feature" = lookupRef s1.refs "feature" :=
  createLocalBranch_idempotent exRepoClean "master" "feature" 0 exC0
    (by decide) (by decide) (by decide)

/-- C2: evaluation at the failing input. On `exRepo0` (HEAD on `master` at
hash 0, fresh commit hash 1) `CommitChangesInNewBranch _ "T" "feature"`
succeeds and creates commit 1, but `refs/heads/feature` still points at the
pre-commit HEAD hash 0, not at the new commit — the commit advanced the
checked-out branch `master` instead, refuting the claim that the named
branch reference is advanced to the new commit. -/
theorem commitChanges_branch_not_advanced :
    CommitChangesInNewBranch exRepo0 "T" "feature" =
      Except.ok ("successfully committed changes", exRepo0After) ∧
    lookupCommit exRepo0After.commits exRepo0.nextHash = some exCommitNew ∧
    lookupRef exRepo0After.refs "feature" = some 0 ∧
    lookupRef exRepo0After.refs "feature" ≠ some exRepo0.nextHash ∧
    lookupRef exRepo0After.refs "master" = some exRepo0.nextHash := by
  refine ⟨rfl, by decide, by decide, by decide, by decide⟩

lemma commitChanges_run (s : GitState) (t bn : String) (h : Hash)
    (hh : lookupRef s.refs s.headBranch = some h) :
    CommitChangesInNewBranch s t bn = Except.ok ("successfully committed changes",
      { s with
          commits := (s.nextHash,
            { parent := some h, tree := s.worktree, authorName := "Dagger",
              authorEmail := "mihai.g@adoreme.com", message := t }) :: s.commits,
          refs := setRefList (setRefList s.refs bn h) s.headBranch s.nextHash,
          index := s.worktree, nextHash := s.nextHash + 1 }) := by
  have hph : lookupRef (setRefList s.refs bn h) s.headBranch = some h := by
    rw [lookupRef_setRefList]
    split
    · rfl
    · exact hh
  simp [CommitChangesInNewBranch, headOf, hh, commitAll, hph]

/-- C3: for every successful run of `CommitChangesInNewBranch`, the commit
it creates (stored at the pre-run fresh hash `s.nextHash`) has as parent
exactly the repository's HEAD hash as read before the commit was made. -/
theorem commitChanges_parent_is_head (s : GitState) (t bn msg : String)
    (s' : GitState)
    (hrun : CommitChangesInNewBranch s t bn = Except.ok (msg, s')) :
    ∃ h c, headOf s = some h ∧ lookupCommit s'.commits s.nextHash = some c ∧
      c.parent = some h := by
  cases hh : headOf s with
  | none => simp [CommitChangesInNewBranch, hh] at hrun
  | some h =>
    have hh' : lookupRef s.refs s.headBranch = some h := hh
    rw [commitChanges_run s t bn h hh'] at hrun
    simp only [Except.ok.injEq, Prod.mk.injEq] at hrun
    obtain ⟨hmsg, hs'⟩ := hrun
    subst hs'
    exact ⟨h, { parent := some h, tree := s.worktree, authorName := "Dagger",
                authorEmail := "mihai.g@adoreme.com", message := t },
           rfl, by simp [lookupCommit], rfl⟩

/-- C3 witness: applied to the concrete run on `exRepo0`, whose final state
is `exRepo0After`; the created commit's parent is the pre-commit HEAD
hash 0. -/
theorem commitChanges_parent_is_head_witness :
    ∃ h c, headOf exRepo0 = some h ∧
      lookupCommit exRepo0After.commits exRepo0.nextHash = some c ∧
      c.parent = some h :=
  commitChanges_parent_is_head exRepo0 "T" "feature"
    "successfully committed changes" exRepo0After rfl

/-- C4: on a working tree with no changes relative to HEAD (worktree and
index both equal the HEAD commit's tree), `CommitChangesInNewBranch` still
succeeds and stores a commit whose tree hash equals its parent commit's
tree hash — empty commits are allowed, no skip-empty check exists. -/
theorem commitChanges_empty_commit (s : GitState) (t bn : String) (h : Hash)
    (c : Commit)
    (hhead : headOf s = some h) (_hcm : lookupCommit s.commits h = some c)
    (hnochange : s.worktree = c.tree) :
    ∃ s' nc, CommitChangesInNewBranch s t bn =
        Except.ok ("successfully committed changes", s') ∧
      lookupCommit s'.commits s.nextHash = some nc ∧
      nc.parent = some h ∧ nc.tree = c.tree := by
  have hh' : lookupRef s.refs s.headBranch = some h := hhead
  exact ⟨_, { parent := some h, tree := s.worktree, authorName := "Dagger",
              authorEmail := "mihai.g@adoreme.com", message := t },
         commitChanges_run s t bn h hh', by simp [lookupCommit], rfl,
         by simpa using hnochange⟩

/-- C4 witness: the empty-commit scenario on the clean repository
`exRepoClean` (worktree tree 0 equals the HEAD commit's tree 0). -/
theorem commitChanges_empty_commit_witness :
    ∃ s' nc, CommitChangesInNewBranch exRepoClean "T" "feature" =
        Except.ok ("successfully committed changes", s') ∧
      lookupCommit s'.commits exRepoClean.nextHash = some nc ∧
      nc.parent = some 0 ∧ nc.tree = exC0.tree :=
  commitChanges_empty_commit exRepoClean "T" "feature" 0 exC0
    (by decide) (by decide) (by decide)

/-- C5: evaluation at the failing input. On `exDirty` (base branch `master`
exists, but the worktree holds unstaged changes so `wt.Checkout` fails)
`CreateLocalBranch` nevertheless succeeds — the source assigns the checkout
error to `err` and overwrites it unread — and the new branch is created at
the old HEAD (hash 2, branch `dev`) instead of `master`'s hash 0, refuting
the claim that every failing step, including the checkout, is surfaced to
the caller. -/
theorem createLocalBranch_swallows_checkout_error :
    checkout exDirty "master" = Except.error "worktree contains unstaged changes" ∧
    ∃ s', CreateLocalBranch exDirty "master" "feature" =
        Except.ok ("created local branch " ++ "feature", s') ∧
      s'.headBranch = "dev" ∧
      lookupRef s'.refs "feature" = some 2 ∧
      lookupRef exDirty.refs "master" = some 0 := by
  refine ⟨rfl, ⟨_, rfl, rfl, by decide, by decide⟩⟩

/-- C7: `IsNewerVersion` returns `true` exactly when both version strings
parse and the latest compares strictly greater than the local version;
it returns `false` when the parsed versions are equal; and it returns an
error — never a silent `false` — when either string is malformed. -/
theorem isNewerVersion_spec (latest loc : String) :
    (IsNewerVersion latest loc = Except.ok true ↔
      ∃ lv lo, NewVersion latest = some lv ∧ NewVersion loc = some lo ∧
        semverCompare lv lo > 0) ∧
    (∀ lv lo, NewVersion latest = some lv → NewVersion loc = some lo →
      semverCompare lv lo = 0 → IsNewerVersion latest loc = Except.ok false) ∧
    ((NewVersion latest = none ∨ NewVersion loc = none) →
      ∃ e, IsNewerVersion latest loc = Except.error e) := by
  refine ⟨⟨?_, ?_⟩, ?_, ?_⟩
  · intro hok
    cases h1 : NewVersion latest with
    | none => simp [IsNewerVersion, h1] at hok
    | some lv =>
      cases h2 : NewVersion loc with
      | none => simp [IsNewerVersion, h1, h2] at hok
      | some lo =>
        refine ⟨lv, lo, rfl, rfl, ?_⟩
        by_contra hgt
        simp [IsNewerVersion, h1, h2, hgt] at hok
  · rintro ⟨lv, lo, h1, h2, hgt⟩
    simp [IsNewerVersion, h1, h2, hgt]
  · intro lv lo h1 h2 heq
    simp [IsNewerVersion, h1, h2, heq]
  · rintro (h1 | h2)
    · exact ⟨"failed to parse latest version: Invalid Semantic Version",
             by simp [IsNewerVersion, h1]⟩
    · cases h1 : NewVersion latest with
      | none =>
        exact ⟨"failed to parse latest version: Invalid Semantic Version",
               by simp [IsNewerVersion, h1]⟩
      | some lv =>
        exact ⟨"failed to parse local version: Invalid Semantic Version",
               by simp [IsNewerVersion, h1, h2]⟩

/-- C7 witness: latest `1.2.0` against local `1.1.9` yields `true`; equal
versions yield `false`; a malformed latest string yields an error. -/
theorem isNewerVersion_spec_witness :
    IsNewerVersion "1.2.0" "1.1.9" = Except.ok true ∧
    IsNewerVersion "1.2.0" "1.2.0" = Except.ok false ∧
    ∃ e, IsNewerVersion "not-a-version" "1.1.9" = Except.error e :=
  ⟨(isNewerVersion_spec "1.2.0" "1.1.9").1.mpr
    ⟨⟨1, 2, 0, "", ""⟩, ⟨1, 1, 9, "", ""⟩, by decide, by decide, by decide⟩,
   (isNewerVersion_spec "1.2.0" "1.2.0").2.1 ⟨1, 2, 0, "", ""⟩ ⟨1, 2, 0, "", ""⟩
     (by decide) (by decide) (by decide),
   (isNewerVersion_spec "not-a-version" "1.1.9").2.2 (Or.inl (by decide))⟩

/-- C8: when the latest upstream version is not strictly newer than the
local one (`IsNewerVersion` answers `false`), `ReturnUpdatedCm` succeeds
with the "No update needed" message and leaves the module state — in
particular the ConfigMap contents — completely unchanged. -/
theorem returnUpdatedCm_no_update (m : IstioState)
    (hc : IsNewerVersion m.latestVersion m.localVersion = Except.ok false) :
    ReturnUpdatedCm m =
      Except.ok ("No update needed. Latest version is " ++ m.latestVersion, m) := by
  simp [ReturnUpdatedCm, hc]

/-- C8 witness: equal versions on a concrete state; the outcome is the
success message and the identical state. -/
theorem returnUpdatedCm_no_update_witness :
    ReturnUpdatedCm { latestVersion := "1.2.0", localVersion := "1.2.0",
                      configMap := marshalCm exCm } =
      Except.ok ("No update needed. Latest version is " ++ "1.2.0",
                 { latestVersion := "1.2.0", localVersion := "1.2.0",
                   configMap := marshalCm exCm }) :=
  returnUpdatedCm_no_update
    { latestVersion := "1.2.0", localVersion := "1.2.0",
      configMap := marshalCm exCm } rfl

/-- C9: evaluation at the failing input. When the pull-request creation
call fails at the transport level, go-github returns a nil response next to
the error; the source then evaluates `rsp.Body`, dereferencing a nil
pointer, so `CreatePullRequest` panics instead of returning a wrapped error
carrying the response body — refuting "for every shape of failure". (For an
API-level failure, where a response exists, the wrapped error does embed the
response body.) -/
theorem createPullRequest_nil_response_panics :
    CreatePullRequest true (PRApiResult.transportError "connection refused") =
      GoOutcome.panicked "runtime error: invalid memory address or nil pointer dereference" ∧
    CreatePullRequest true (PRApiResult.apiError "422 Validation Failed" "{message: Validation Failed}") =
      GoOutcome.err ("failed to create pull request with error: " ++
        "422 Validation Failed" ++ ".\nMore details in response: " ++
        "{message: Validation Failed}") :=
  ⟨rfl, rfl⟩

/-- C10: when a newer version exists and the ConfigMap contents parse,
`ReturnUpdatedCm` returns exactly the re-marshalling of the parsed document
with only `data.version` replaced by the latest version; `apiVersion`,
`kind` and the whole `metadata` block (name, namespace, annotations) of the
parsed document are preserved unchanged. -/
theorem returnUpdatedCm_only_version_changed (m : IstioState)
    (cm : IstioVersionCm)
    (hnew : IsNewerVersion m.latestVersion m.localVersion = Except.ok true)
    (hparse : unmarshalCm m.configMap = some cm) :
    ReturnUpdatedCm m = Except.ok
      (marshalCm { cm with data := { version := m.latestVersion } },
       { m with configMap :=
           marshalCm { cm with data := { version := m.latestVersion } } }) ∧
    ({ cm with data := { version := m.latestVersion } }).apiVersion = cm.apiVersion ∧
    ({ cm with data := { version := m.latestVersion } }).kind = cm.kind ∧
    ({ cm with data := { version := m.latestVersion } }).metadata = cm.metadata ∧
    ({ cm with data := { version := m.latestVersion } }).data.version = m.latestVersion := by
  refine ⟨?_, rfl, rfl, rfl, rfl⟩
  simp [ReturnUpdatedCm, hnew, hparse]

/-- C10 witness: a concrete update from `1.2.0` to `1.3.0` on the concrete
document `exCm`. -/
theorem returnUpdatedCm_only_version_changed_witness :
    ReturnUpdatedCm { latestVersion := "1.3.0", localVersion := "1.2.0",
                      configMap := marshalCm exCm } = Except.ok
      (marshalCm { exCm with data := { version := "1.3.0" } },
       { latestVersion := "1.3.0", localVersion := "1.2.0",
         configMap := marshalCm { exCm with data := { version := "1.3.0" } } }) ∧
    ({ exCm with data := { version := "1.3.0" } }).apiVersion = exCm.apiVersion ∧
    ({ exCm with data := { version := "1.3.0" } }).kind = exCm.kind ∧
    ({ exCm with data := { version := "1.3.0" } }).metadata = exCm.metadata ∧
    ({ exCm with data := { version := "1.3.0" } }).data.version = "1.3.0" :=
  returnUpdatedCm_only_version_changed
    { latestVersion := "1.3.0", localVersion := "1.2.0",
      configMap := marshalCm exCm } exCm rfl (by decide)

end Daggerverse
